import Mathlib

/-!
# chihaya: UDP frontend, client approval, JWT hook and redis peer store

A shallow embedding of four source files of the tracker
(`frontend/udp/frontend.go`, `middleware/clientapproval/clientapproval.go`,
`middleware/jwt/jwt.go`, `storage/redis/peer_crud.go`) together with the
properties proved about them.

Conventions of the embedding:

* a Go `string` / `[]byte` is a list of bytes (`Bytes`);
* a Go `error` result is an `Option GoError` (`none` is `nil`);
* a Go `map` is a key-unique association list (`GoMap`);
* `time.Time` and `time.Duration` are integers counting nanoseconds, `int64`
  arithmetic on a duration wraps (`wrapInt64`);
* a run-time panic (slice bounds, wrong array length) is an explicit `Fault.panic`.
-/

namespace Chihaya

/-- One octet. -/
abbrev Byte := Fin 256

/-- A Go `string` or `[]byte`: a finite sequence of octets. -/
abbrev Bytes := List Byte

/-- A Go `error` value: either a `bittorrent.ClientError` (shown to the client)
or any other error (`errors.New`, library errors). -/
inductive GoError where
  | client (msg : String)
  | plain (msg : String)
  deriving DecidableEq, Repr

/-- Text of an error value (`err.Error()`). -/
def GoError.Error : GoError → String
  | .client m => m
  | .plain m => m

/-- Rendering of a byte string inside an error message. -/
def goString (b : Bytes) : String :=
  String.mk (b.map (fun c => Char.ofNat c.val))

/-- The library functions `binary.BigEndian.Uint32` and `binary.BigEndian.Uint16`
on a slice of four or two bytes: the big-endian value of the byte string. -/
def bigEndian (b : Bytes) : Nat :=
  b.foldl (fun acc c => acc * 256 + c.val) 0

/-- How a Go call can fail: it returns an error value, or it panics. -/
inductive Fault where
  | returned (err : GoError)
  | panic
  deriving DecidableEq

/-- The value an `int64` computation yields for the exact result `x`: its
two's-complement reading on 64 bits. -/
def wrapInt64 (x : Int) : Int :=
  (x + 9223372036854775808) % 18446744073709551616 - 9223372036854775808

/-- One second, as a `time.Duration`. -/
def Second : Int := 1000000000

/-- The method `Time.Unix` on a time given in nanoseconds since the epoch: the
whole seconds elapsed, rounded down. -/
def Unix (t : Int) : Int := t / Second

/-! ## Go maps -/

/-- A Go `map[κ]ν`: an association list that holds each key at most once. -/
structure GoMap (κ ν : Type) where
  entries : List (κ × ν)

namespace GoMap

variable {κ ν : Type} [DecidableEq κ]

/-- The empty map, `map[κ]ν{}` or `make(map[κ]ν)`. -/
def empty : GoMap κ ν := ⟨[]⟩

/-- The lookup `m[k]` with the comma-ok flag folded into an `Option`. -/
def get? (m : GoMap κ ν) (k : κ) : Option ν :=
  (m.entries.find? (fun e => decide (e.1 = k))).map Prod.snd

/-- The assignment `m[k] = v`: a former binding of `k` is replaced. -/
def set (m : GoMap κ ν) (k : κ) (v : ν) : GoMap κ ν :=
  ⟨(k, v) :: m.entries.filter (fun e => !decide (e.1 = k))⟩

/-- The builtin `len(m)`. -/
def len (m : GoMap κ ν) : Nat := m.entries.length

end GoMap

/-! ## Package `bittorrent` (types used by the four files) -/

namespace bittorrent

/-- The type `InfoHash`, a `[20]byte`. -/
abbrev InfoHash := { l : Bytes // l.length = 20 }

/-- The type `PeerID`, a `[20]byte`. -/
abbrev PeerID := { l : Bytes // l.length = 20 }

/-- The type `ClientID`, a `[6]byte`; the constructors below only ever build
six-byte values. -/
abbrev ClientID := Bytes

/-- Modelled from the spec: `bittorrent.NewClientID` (package `bittorrent` is not
among the sources). "The leading 6 bytes [of the PeerID] are the ClientID". -/
def NewClientID (pid : PeerID) : ClientID := pid.val.take 6

/-- Modelled from the spec: `InfoHashFromString` (package `bittorrent` is not among
the sources) gives the info-hash whose 20 bytes are those of the string; a string
of another length has no info-hash (`none`, a panic in Go). -/
def InfoHashFromString (s : Bytes) : Option InfoHash :=
  if h : s.length = 20 then some ⟨s, h⟩ else none

/-- Modelled from the spec: `PeerIDFromString` (package `bittorrent` is not among
the sources) gives the peer ID whose 20 bytes are those of the string; a string
of another length has no peer ID (`none`, a panic in Go). -/
def PeerIDFromString (s : Bytes) : Option PeerID :=
  if h : s.length = 20 then some ⟨s, h⟩ else none

/-- Modelled from the spec: the record `bittorrent.Peer`, "tuple (PeerID, IP, Port)". -/
structure Peer where
  ID : PeerID
  IP : Bytes
  Port : Nat
  deriving DecidableEq

/-- Modelled from the spec: `Peer.Equal`. "Two peers are equal iff all three
fields are equal." -/
def Peer.Equal (p x : Peer) : Bool :=
  decide (p.ID = x.ID) && decide (p.IP = x.IP) && decide (p.Port = x.Port)

/-- Modelled from the spec: the announce events. -/
inductive Event where
  | none | started | stopped | completed
  deriving DecidableEq

/-- Modelled from the spec: the record `bittorrent.AnnounceRequest`. -/
structure AnnounceRequest where
  InfoHash : InfoHash
  Peer : Peer
  Event : Event
  NumWant : Nat
  Left : Nat
  IPv6 : Bool
  Params : Option (List (Bytes × Bytes))

/-- Modelled from the spec: the record `bittorrent.AnnounceResponse`. -/
structure AnnounceResponse where
  Interval : Int
  MinInterval : Int
  Complete : Nat
  Incomplete : Nat
  Peers : List Peer

/-- Modelled from the spec: the record `bittorrent.ScrapeRequest`. -/
structure ScrapeRequest where
  InfoHashes : List InfoHash

/-- Modelled from the spec: one entry of a scrape response. -/
structure Scrape where
  Complete : Nat
  Downloaded : Nat
  Incomplete : Nat

/-- Modelled from the spec: the record `bittorrent.ScrapeResponse`. -/
structure ScrapeResponse where
  Files : List Scrape

end bittorrent

/-! ## Package `clientapproval` -/

namespace clientapproval

open bittorrent

/-- The error `ErrClientUnapproved`. -/
def ErrClientUnapproved : GoError := .client "unapproved client"

/-- The record `Config`: the two lists of client IDs. -/
structure Config where
  Whitelist : List Bytes
  Blacklist : List Bytes

/-- The record `hook`: the two sets built from the configuration. -/
structure hook where
  approved : GoMap ClientID Unit
  unapproved : GoMap ClientID Unit

/-- One of the two loops of `NewHook`: every entry must have six bytes and is
then added to the set. -/
def addClientIDs : List Bytes → GoMap ClientID Unit → Except GoError (GoMap ClientID Unit)
  | [], m => .ok m
  | cidString :: rest, m =>
    if cidString.length ≠ 6 then
      .error (.plain ("client ID " ++ goString cidString ++ " must be 6 bytes"))
    else
      addClientIDs rest (m.set cidString ())

/-- The constructor `NewHook`. -/
def NewHook (cfg : Config) : Except GoError hook :=
  match addClientIDs cfg.Whitelist GoMap.empty with
  | .error e => .error e
  | .ok approved =>
    match addClientIDs cfg.Blacklist GoMap.empty with
    | .error e => .error e
    | .ok unapproved => .ok ⟨approved, unapproved⟩

/-- The method `hook.HandleAnnounce`: returns the context it was given and the error. -/
def HandleAnnounce {γ : Type} (h : hook) (ctx : γ) (req : AnnounceRequest) : γ × Option GoError :=
  let clientID := NewClientID req.Peer.ID
  if h.approved.len > 0 ∧ (h.approved.get? clientID).isNone then
    (ctx, some ErrClientUnapproved)
  else if h.unapproved.len > 0 ∧ (h.unapproved.get? clientID).isSome then
    (ctx, some ErrClientUnapproved)
  else
    (ctx, none)

/-- The method `hook.HandleScrape`: scrapes are always allowed. -/
def HandleScrape {γ : Type} (_h : hook) (ctx : γ) (_req : ScrapeRequest) : γ × Option GoError :=
  (ctx, none)

end clientapproval

/-! ## Package `udp`: the frontend -/

namespace udp

open bittorrent

/-- Modelled from the spec: the error `errMalformedPacket` (declared in the
package's parser, which is not among the sources), a client error. -/
def errMalformedPacket : GoError := .client "malformed packet"

/-- Modelled from the spec: the error `errBadConnectionID` (declared in the
package's parser, which is not among the sources), a client error. -/
def errBadConnectionID : GoError := .client "bad connection id"

/-- Modelled from the spec: the error `errUnknownAction` (declared in the
package's parser, which is not among the sources), a client error. -/
def errUnknownAction : GoError := .client "unknown action"

/-- Modelled from the spec: the action number of `connect` (section 4.B). -/
def connectActionID : Nat := 0

/-- Modelled from the spec: the action number of `announce` (section 4.B). -/
def announceActionID : Nat := 1

/-- Modelled from the spec: the action number of `scrape` (section 4.B). -/
def scrapeActionID : Nat := 2

/-- Modelled from the spec: the action number of `announce-v6` (section 4.B). -/
def announceV6ActionID : Nat := 4

/-- Modelled from the spec: `initialConnectionID`, "the constant
`0x0000041727101980`", as its eight bytes in network order. -/
def initialConnectionID : Bytes := [0x00, 0x00, 0x04, 0x17, 0x27, 0x10, 0x19, 0x80]

/-- The record `Config`. -/
structure Config where
  Addr : Bytes
  PrivateKey : Bytes
  MaxClockSkew : Int
  AllowIPSpoofing : Bool
  deriving DecidableEq

/-- The record `Request`: the datagram and the address it came from. -/
structure Request where
  Packet : Bytes
  IP : Bytes

/-- The ambient context a `TrackerLogic` operation receives: either
`context.Background()` or that context with the key `ScrapeIsIPv6Key` set. -/
inductive Ctx where
  | background
  | scrapeIsIPv6 (v6 : Bool)
  deriving DecidableEq

/-- The results of the two synchronous operations of the collaborator interface
`frontend.TrackerLogic`; a call of any of its four operations is recorded in the
trace of effects (`Effect`). -/
structure TrackerLogic where
  HandleAnnounce : Ctx → AnnounceRequest → Except GoError AnnounceResponse
  HandleScrape : Ctx → ScrapeRequest → Except GoError ScrapeResponse

/-- The functions of package `udp` that `handleRequest` calls and that live in
files which are not among the sources (connection-ID codec and parser); they are
parameters of the embedding. -/
structure Codec where
  ValidConnectionID : Bytes → Bytes → Int → Int → Bytes → Bool
  NewConnectionID : Bytes → Int → Bytes → Bytes
  ParseAnnounce : Request → Bool → Bool → Except GoError AnnounceRequest
  ParseScrape : Request → Except GoError ScrapeRequest

/-- The record `Frontend`, without its socket, channel and wait group. -/
structure Frontend where
  logic : TrackerLogic
  Config : Config

/-- A datagram handed to `ResponseWriter.Write`, named by the writer function
that built it and the arguments it was built from. -/
inductive Response where
  | error (txID : Bytes) (err : GoError)
  | connectionID (txID : Bytes) (connID : Bytes)
  | announce (txID : Bytes) (resp : AnnounceResponse) (v6 : Bool)
  | scrape (txID : Bytes) (resp : ScrapeResponse)

/-- What `handleRequest` does to the outside world: a write to the
`ResponseWriter`, or a call of one of the four `TrackerLogic` operations
(the two `After` calls are started as goroutines). -/
inductive Effect where
  | write (r : Response)
  | HandleAnnounce (ctx : Ctx) (req : AnnounceRequest)
  | AfterAnnounce (ctx : Ctx) (req : AnnounceRequest) (resp : AnnounceResponse)
  | HandleScrape (ctx : Ctx) (req : ScrapeRequest)
  | AfterScrape (ctx : Ctx) (req : ScrapeRequest) (resp : ScrapeResponse)

/-- Whether an effect is a write to the `ResponseWriter`. -/
def Effect.isWrite : Effect → Bool
  | .write _ => true
  | _ => false

/-- Whether an effect is a call of a `TrackerLogic` operation. -/
def Effect.isLogicCall : Effect → Bool
  | .write _ => false
  | _ => true

/-- Modelled from the spec: `WriteError` (the package's writer is not among the
sources) writes one datagram, the error frame `action=3 | txID | message`. -/
def WriteError (txID : Bytes) (err : GoError) : List Effect :=
  [.write (.error txID err)]

/-- Modelled from the spec: `WriteConnectionID` (the package's writer is not among
the sources) writes one datagram, `action=0 | txID | connectionID`. -/
def WriteConnectionID (txID connID : Bytes) : List Effect :=
  [.write (.connectionID txID connID)]

/-- Modelled from the spec: `WriteAnnounce` (the package's writer is not among the
sources) writes one datagram, the announce response. -/
def WriteAnnounce (txID : Bytes) (resp : AnnounceResponse) (v6 : Bool) : List Effect :=
  [.write (.announce txID resp v6)]

/-- Modelled from the spec: `WriteScrape` (the package's writer is not among the
sources) writes one datagram, the scrape response. -/
def WriteScrape (txID : Bytes) (resp : ScrapeResponse) : List Effect :=
  [.write (.scrape txID resp)]

/-- The constructor `NewFrontend`. Its Go result is a `*Frontend`; `none` stands
for a nil pointer or a panic, the only ways a function of this signature has to
fail. -/
def NewFrontend (logic : TrackerLogic) (cfg : Config) : Option Frontend :=
  some { logic := logic, Config := cfg }

/-- What a call of `handleRequest` yields: the two named results and the trace
of effects, in the order they happen. -/
structure Handled where
  actionName : String
  err : Option GoError
  effects : List Effect

/-- The method `Frontend.handleRequest`; `now` is the reading of `time.Now()`. -/
def handleRequest (t : Frontend) (c : Codec) (now : Int) (r : Request) : Handled :=
  if r.Packet.length < 16 then
    ⟨"", some errMalformedPacket, []⟩
  else
    let connID := r.Packet.take 8
    let actionID := bigEndian ((r.Packet.drop 8).take 4)
    let txID := (r.Packet.drop 12).take 4
    if actionID ≠ connectActionID ∧
        c.ValidConnectionID connID r.IP now t.Config.MaxClockSkew t.Config.PrivateKey = false then
      ⟨"", some errBadConnectionID, WriteError txID errBadConnectionID⟩
    else if actionID = connectActionID then
      if connID ≠ initialConnectionID then
        ⟨"connect", some errMalformedPacket, []⟩
      else
        ⟨"connect", none,
          WriteConnectionID txID (c.NewConnectionID r.IP now t.Config.PrivateKey)⟩
    else if actionID = announceActionID ∨ actionID = announceV6ActionID then
      let v6 := decide (actionID = announceV6ActionID)
      match c.ParseAnnounce r t.Config.AllowIPSpoofing v6 with
      | .error e => ⟨"announce", some e, WriteError txID e⟩
      | .ok req =>
        match t.logic.HandleAnnounce .background req with
        | .error e =>
          ⟨"announce", some e, .HandleAnnounce .background req :: WriteError txID e⟩
        | .ok resp =>
          ⟨"announce", none,
            .HandleAnnounce .background req ::
              (WriteAnnounce txID resp v6 ++ [.AfterAnnounce .background req resp])⟩
    else if actionID = scrapeActionID then
      match c.ParseScrape r with
      | .error e => ⟨"scrape", some e, WriteError txID e⟩
      | .ok req =>
        let ctx := Ctx.scrapeIsIPv6 (decide (r.IP.length = 16))
        match t.logic.HandleScrape ctx req with
        | .error e => ⟨"scrape", some e, .HandleScrape ctx req :: WriteError txID e⟩
        | .ok resp =>
          ⟨"scrape", none,
            .HandleScrape ctx req ::
              (WriteScrape txID resp ++ [.AfterScrape .background req resp])⟩
    else
      ⟨"", some errUnknownAction, WriteError txID errUnknownAction⟩

end udp

/-! ## Package `redis`: the peer operations -/

namespace redis

open bittorrent

/-- A redis sorted set as `ZRANGE key 0 -1 WITHSCORES` lists it: the members with
their scores. -/
abbrev SortedSet := List (Bytes × Int)

/-- The function `decodePeerKey`: the slices `pk[:20]`, `pk[20:22]` and `pk[22:]`
panic on a key shorter than 22 bytes. -/
def decodePeerKey (pk : Bytes) : Except Fault Peer :=
  if pk.length < 22 then
    .error .panic
  else
    match PeerIDFromString (pk.take 20) with
    | none => .error .panic
    | some id => .ok { ID := id, Port := bigEndian ((pk.drop 20).take 2), IP := pk.drop 22 }

/-- The loop of `getPeers` over the reply of `ZRANGE`. -/
def getPeersLoop (numWant : Int) (excludePeers : Peer) :
    List Bytes → List Peer → Except Fault (List Peer)
  | [], peers => .ok peers
  | p :: rest, peers =>
    if numWant = (peers.length : Int) then
      .ok peers
    else
      match decodePeerKey p with
      | .error f => .error f
      | .ok decodedPeer =>
        if decodedPeer.Equal excludePeers then
          getPeersLoop numWant excludePeers rest peers
        else
          getPeersLoop numWant excludePeers rest (peers ++ [decodedPeer])

/-- The function `getPeers`; `zrange` is the reply of the server to
`ZRANGE Key 0 -1` for the key that the store, info-hash and peer type select. -/
def getPeers (zrange : Except GoError (List Bytes)) (numWant : Int) (peers : List Peer)
    (excludePeers : Peer) : Except Fault (List Peer) :=
  match zrange with
  | .error err => .error (.returned err)
  | .ok peerList => getPeersLoop numWant excludePeers peerList peers

/-- The redis command `ZREMRANGEBYSCORE key -inf (bound`: every member whose score
is strictly below `bound` is removed. -/
def zremrangebyscoreBelow (set : SortedSet) (bound : Int) : SortedSet :=
  set.filter (fun e => !decide (e.2 < bound))

/-- The function `pruneExpiredPeers` on the sorted set that the store, info-hash
and peer type select; `now` is the reading of `time.Now()`, `connErr` the error of
the connection when the command cannot be carried out. The negation
`-s.peerLifetime` is an `int64` negation and wraps. Returns the set afterwards
and the error. -/
def pruneExpiredPeers (peerLifetime : Int) (now : Int) (connErr : Option GoError)
    (set : SortedSet) : SortedSet × Option GoError :=
  match connErr with
  | some err => (set, some err)
  | none => (zremrangebyscoreBelow set (Unix (now + wrapInt64 (-peerLifetime))), none)

/-- What the specification says `getPeers` returns: the accumulator, then the
decoded stored peers other than the announcer, in stored order, as many as fit
below `numWant`. -/
def getPeersSpec (decoded : List Peer) (numWant : Int) (peers : List Peer)
    (excludePeers : Peer) : List Peer :=
  peers ++ (decoded.filter (fun p => decide (p ≠ excludePeers))).take (numWant.toNat - peers.length)

end redis

/-! ## Package `jwt` -/

namespace jwt

open bittorrent

/-- The record `Config`. -/
structure Config where
  Issuer : Bytes
  Audience : Bytes
  JWKSetURL : Bytes
  JWKUpdateInterval : Int

/-- The record `hook` (without its `closing` channel); `PK` is `crypto.PublicKey`. -/
structure hook (PK : Type) where
  cfg : Config
  publicKeys : GoMap Bytes PK

/-- The outside world of `updateKeys`: what `http.Get` answers for a URL, what the
JSON decoder makes of a body (the `Keys` of the parsed set), and the library
methods on a parsed key of type `JWK` (`gojwk.Key`). -/
structure Env (JWK PK : Type) where
  Get : Bytes → Except GoError Bytes
  Decode : Bytes → Except GoError (List JWK)
  Kid : JWK → Bytes
  DecodePublicKey : JWK → Except GoError PK

/-- The loop of `updateKeys` over the parsed keys, filling the local map `keys`. -/
def collectKeys {JWK PK : Type} (env : Env JWK PK) :
    List JWK → GoMap Bytes PK → Except GoError (GoMap Bytes PK)
  | [], keys => .ok keys
  | parsedJWK :: rest, keys =>
    match env.DecodePublicKey parsedJWK with
    | .error err => .error err
    | .ok publicKey => collectKeys env rest (keys.set (env.Kid parsedJWK) publicKey)

/-- The method `hook.updateKeys`: returns the hook afterwards and the error. -/
def updateKeys {JWK PK : Type} (env : Env JWK PK) (h : hook PK) : hook PK × Option GoError :=
  match env.Get h.cfg.JWKSetURL with
  | .error err => (h, some err)
  | .ok body =>
    match env.Decode body with
    | .error err => (h, some err)
    | .ok parsedJWKs =>
      match collectKeys env parsedJWKs GoMap.empty with
      | .error err => (h, some err)
      | .ok keys => ({ h with publicKeys := keys }, none)

/-- What the specification calls the map from each fetched key's kid to its
decoded public key, as a lookup: the key is that of the last fetched entry
carrying the kid. -/
def fetchedKey {JWK PK : Type} (env : Env JWK PK) (fetched : List JWK) (kid : Bytes) : Option PK :=
  match fetched.reverse.find? (fun j => decide (env.Kid j = kid)) with
  | none => none
  | some j =>
    match env.DecodePublicKey j with
    | .error _ => none
    | .ok pk => some pk

/-- The library function `ishex` of `net/url`. -/
def ishex (c : Byte) : Bool :=
  (decide (0x30 ≤ c) && decide (c ≤ 0x39)) ||
  (decide (0x61 ≤ c) && decide (c ≤ 0x66)) ||
  (decide (0x41 ≤ c) && decide (c ≤ 0x46))

/-- The library function `unhex` of `net/url`. -/
def unhex (c : Byte) : Byte :=
  if 0x30 ≤ c ∧ c ≤ 0x39 then c - 0x30
  else if 0x61 ≤ c ∧ c ≤ 0x66 then c - 0x61 + 10
  else if 0x41 ≤ c ∧ c ≤ 0x46 then c - 0x41 + 10
  else 0

/-- First pass of `unescape` in `net/url`: the first `%` that is not followed by
two hex digits stops the function with an `EscapeError` holding that fragment;
`none` when the string is well-formed. -/
def escapeError : Bytes → Option Bytes
  | [] => none
  | c :: rest =>
    if c = 0x25 then
      match rest with
      | a :: b :: rest2 =>
        if ishex a && ishex b then escapeError rest2 else some [c, a, b]
      | _ => some (c :: rest)
    else
      escapeError rest

/-- Second pass of `unescape` in `net/url`, in query-component mode: `%XY` becomes
the byte `unhex(X)<<4 | unhex(Y)`, `+` becomes a space, other bytes are copied. -/
def unescapeBytes : Bytes → Bytes
  | [] => []
  | c :: rest =>
    if c = 0x25 then
      match rest with
      | a :: b :: rest2 => ((unhex a <<< 4) ||| unhex b) :: unescapeBytes rest2
      | _ => []
    else if c = 0x2B then
      0x20 :: unescapeBytes rest
    else
      c :: unescapeBytes rest

/-- The library function `url.QueryUnescape`: the error is the offending
fragment; a string without `%` and `+` is returned as it is. -/
def QueryUnescape (s : Bytes) : Except Bytes Bytes :=
  match escapeError s with
  | some frag => .error frag
  | none =>
    if ¬ (0x25 : Byte) ∈ s ∧ ¬ (0x2B : Byte) ∈ s then .ok s else .ok (unescapeBytes s)

/-- The function `validInfoHash`. -/
def validInfoHash (claim : Bytes) (ih : InfoHash) : Bool :=
  if claim.length = 20 ∧ InfoHashFromString claim = some ih then
    true
  else
    match QueryUnescape claim with
    | .error _ => false
    | .ok unescapedClaim =>
      if unescapedClaim.length = 20 ∧ InfoHashFromString unescapedClaim = some ih then
        true
      else
        false

/-- An upper-case hex digit. -/
def hexDigit (n : Nat) : Byte :=
  if n < 10 then Fin.ofNat (0x30 + n) else Fin.ofNat (0x41 + (n - 10))

/-- The fully percent-encoded form of a byte string: every byte `b` is written
`%XY` with its two hex digits. -/
def percentEncode : Bytes → Bytes
  | [] => []
  | b :: rest => 0x25 :: hexDigit (b.val / 16) :: hexDigit (b.val % 16) :: percentEncode rest

end jwt

/-! ## Sample inputs -/

namespace udp

/-- A tracker logic that answers every announce and scrape with an empty response. -/
def idleLogic : TrackerLogic where
  HandleAnnounce := fun _ _ => .ok ⟨0, 0, 0, 0, []⟩
  HandleScrape := fun _ _ => .ok ⟨[]⟩

/-- A configuration whose private key is empty. -/
def emptyKeyConfig : Config := ⟨[], [], 0, false⟩

/-- A codec whose connection-ID check rejects everything. -/
def rejectingCodec : Codec where
  ValidConnectionID := fun _ _ _ _ _ => false
  NewConnectionID := fun _ _ _ => []
  ParseAnnounce := fun _ _ _ => .error errMalformedPacket
  ParseScrape := fun _ => .error errMalformedPacket

/-- A 16-byte datagram with action 1 (announce) and transaction ID `01 02 03 04`. -/
def announceHeader : Request := ⟨[9, 9, 9, 9, 9, 9, 9, 9, 0, 0, 0, 1, 1, 2, 3, 4], [127, 0, 0, 1]⟩

/-- A 10-byte datagram. -/
def shortDatagram : Request := ⟨[0, 0, 0, 0, 0, 0, 0, 0, 0, 0], [127, 0, 0, 1]⟩

end udp

namespace redis

open bittorrent

/-- The announcing peer of the examples: ID twenty times `01`, 10.0.0.1:6667. -/
def sampleAnnouncer : Peer := ⟨⟨List.replicate 20 1, rfl⟩, [10, 0, 0, 1], 6667⟩

/-- Another peer: ID twenty times `02`, 10.0.0.2:6667. -/
def samplePeer : Peer := ⟨⟨List.replicate 20 2, rfl⟩, [10, 0, 0, 2], 6667⟩

/-- The stored keys of the two sample peers, the announcer first. -/
def sampleKeys : List Bytes :=
  [List.replicate 20 1 ++ [0x1A, 0x0B] ++ [10, 0, 0, 1],
   List.replicate 20 2 ++ [0x1A, 0x0B] ++ [10, 0, 0, 2]]

/-- A sorted set with one member, scored 90 seconds. -/
def sampleSet : SortedSet := [([1], 90)]

end redis

namespace jwt

open bittorrent

/-- A world in which the fetch succeeds and yields two keys, with kids `01` and
`02`, that decode to the public keys 7 and 8. -/
def sampleEnv : Env (Bytes × Nat) Nat where
  Get := fun _ => .ok []
  Decode := fun _ => .ok [([1], 7), ([2], 8)]
  Kid := Prod.fst
  DecodePublicKey := fun j => .ok j.2

/-- A world in which the fetch fails. -/
def failingEnv : Env (Bytes × Nat) Nat where
  Get := fun _ => .error (.plain "connection refused")
  Decode := fun _ => .ok []
  Kid := Prod.fst
  DecodePublicKey := fun j => .ok j.2

/-- A hook that knows one key, kid `09` with public key 1. -/
def sampleHook : hook Nat := ⟨⟨[], [], [], 0⟩, (GoMap.empty : GoMap Bytes Nat).set [9] 1⟩

/-- The 20-byte claim `+aaaaaaaaaaaaaaaaaaa`. -/
def plusClaim : Bytes := 0x2B :: List.replicate 19 0x61

/-- The info-hash with the bytes of `plusClaim`. -/
def plusHash : InfoHash := ⟨0x2B :: List.replicate 19 0x61, rfl⟩

/-- The info-hash with the bytes of `plusClaim` after unescaping: a space, then
nineteen `a`. -/
def spaceHash : InfoHash := ⟨0x20 :: List.replicate 19 0x61, rfl⟩

/-- A 20-byte claim with both `+` and `%`: `+%41aaaaaaaaaaaaaaaa`. -/
def plusPercentClaim : Bytes := 0x2B :: 0x25 :: 0x34 :: 0x31 :: List.replicate 16 0x61

/-- The info-hash with the bytes of `plusPercentClaim`. -/
def plusPercentHash : InfoHash :=
  ⟨0x2B :: 0x25 :: 0x34 :: 0x31 :: List.replicate 16 0x61, rfl⟩

end jwt

/-! ## Lemmas on Go maps -/

section GoMapLemmas

variable {κ ν : Type} [DecidableEq κ]

theorem GoMap.get?_empty (k : κ) : (GoMap.empty : GoMap κ ν).get? k = none := rfl

theorem GoMap.get?_set (m : GoMap κ ν) (k k2 : κ) (v : ν) :
    (m.set k v).get? k2 = if k = k2 then some v else m.get? k2 := by
  unfold GoMap.set GoMap.get?
  by_cases h : k = k2
  · simp [List.find?, h]
  · simp only [List.find?, h, decide_False, if_false]
    congr 1
    induction m.entries with
    | nil => rfl
    | cons e es ih =>
      by_cases he : e.1 = k
      · have : ¬ e.1 = k2 := fun h2 => h (he.symm.trans h2)
        simp [List.filter, List.find?, he, this, ih, h]
      · simp [List.filter, List.find?, he, ih]

theorem GoMap.len_set_pos (m : GoMap κ ν) (k : κ) (v : ν) : 0 < (m.set k v).len := by
  simp [GoMap.set, GoMap.len]

theorem GoMap.len_pos_of_get? (m : GoMap κ ν) (k : κ) (h : (m.get? k).isSome) : 0 < m.len := by
  unfold GoMap.get? at h
  unfold GoMap.len
  cases hm : m.entries with
  | nil => simp [hm] at h
  | cons e es => simp

end GoMapLemmas

/-! ## Client approval -/

namespace clientapproval

open bittorrent

theorem addClientIDs_ok (l : List Bytes) (m : GoMap ClientID Unit)
    (hl : ∀ e ∈ l, e.length = 6) :
    ∃ m2, addClientIDs l m = .ok m2 ∧
      (∀ c, (m2.get? c).isSome ↔ c ∈ l ∨ (m.get? c).isSome) ∧
      (0 < m2.len ↔ l ≠ [] ∨ 0 < m.len) := by
  induction l generalizing m with
  | nil => exact ⟨m, rfl, by simp, by simp⟩
  | cons e es ih =>
    have he : e.length = 6 := hl e (List.mem_cons_self _ _)
    obtain ⟨m2, h1, h2, h3⟩ := ih (m.set e ()) (fun x hx => hl x (List.mem_cons_of_mem _ hx))
    refine ⟨m2, ?_, ?_, ?_⟩
    · simp [addClientIDs, he, h1]
    · intro c
      rw [h2 c, GoMap.get?_set]
      by_cases hc : e = c
      · simp [hc]
      · have hc2 : ¬ c = e := fun h => hc h.symm
        simp [hc, hc2]
    · rw [h3]
      have := GoMap.len_set_pos m e ()
      simp [this]

/-- C3. For a whitelist `W` and a blacklist `B` whose entries all have six bytes,
`NewHook` builds a hook, and for every announce request with client ID `c`
`HandleAnnounce` returns `ErrClientUnapproved` exactly when (`W` is non-empty and
`c` is not in `W`) or (`B` is non-empty and `c` is in `B`); in every other case
it returns no error; it always returns the context it was given. -/
theorem HandleAnnounce_unapproved_iff (W B : List Bytes)
    (hW : ∀ e ∈ W, e.length = 6) (hB : ∀ e ∈ B, e.length = 6) :
    ∃ h, NewHook ⟨W, B⟩ = .ok h ∧
      ∀ (γ : Type) (ctx : γ) (req : AnnounceRequest),
        ((HandleAnnounce h ctx req).2 = some ErrClientUnapproved ↔
          (W ≠ [] ∧ NewClientID req.Peer.ID ∉ W) ∨ (B ≠ [] ∧ NewClientID req.Peer.ID ∈ B)) ∧
        (¬ ((W ≠ [] ∧ NewClientID req.Peer.ID ∉ W) ∨ (B ≠ [] ∧ NewClientID req.Peer.ID ∈ B)) →
          HandleAnnounce h ctx req = (ctx, none)) ∧
        (HandleAnnounce h ctx req).1 = ctx := by
  obtain ⟨a, ha, ha2, ha3⟩ := addClientIDs_ok W GoMap.empty hW
  obtain ⟨u, hu, hu2, hu3⟩ := addClientIDs_ok B GoMap.empty hB
  refine ⟨⟨a, u⟩, by simp [NewHook, ha, hu], ?_⟩
  intro γ ctx req
  have hapos : 0 < a.len ↔ W ≠ [] := by rw [ha3]; simp [GoMap.len, GoMap.empty]
  have hupos : 0 < u.len ↔ B ≠ [] := by rw [hu3]; simp [GoMap.len, GoMap.empty]
  have hamem : ∀ c, (a.get? c).isSome ↔ c ∈ W := by
    intro c; rw [ha2 c]; simp [GoMap.get?_empty]
  have humem : ∀ c, (u.get? c).isSome ↔ c ∈ B := by
    intro c; rw [hu2 c]; simp [GoMap.get?_empty]
  have hanone : ∀ c, (a.get? c).isNone ↔ c ∉ W := by
    intro c; rw [← hamem c]; cases a.get? c <;> simp
  have key : (a.len > 0 ∧ (a.get? (NewClientID req.Peer.ID)).isNone) ↔
      (W ≠ [] ∧ NewClientID req.Peer.ID ∉ W) := by
    rw [gt_iff_lt]; rw [hapos, hanone]
  have key2 : (u.len > 0 ∧ (u.get? (NewClientID req.Peer.ID)).isSome) ↔
      (B ≠ [] ∧ NewClientID req.Peer.ID ∈ B) := by
    rw [gt_iff_lt]; rw [hupos, humem]
  unfold HandleAnnounce
  simp only []
  by_cases h1 : a.len > 0 ∧ (a.get? (NewClientID req.Peer.ID)).isNone
  · have h1s := key.mp h1
    rw [if_pos h1]
    exact ⟨⟨fun _ => Or.inl h1s, fun _ => rfl⟩, fun hn => absurd (Or.inl h1s) hn, rfl⟩
  · have h1s : ¬ (W ≠ [] ∧ NewClientID req.Peer.ID ∉ W) := fun h => h1 (key.mpr h)
    rw [if_neg h1]
    by_cases h2 : u.len > 0 ∧ (u.get? (NewClientID req.Peer.ID)).isSome
    · have h2s := key2.mp h2
      rw [if_pos h2]
      exact ⟨⟨fun _ => Or.inr h2s, fun _ => rfl⟩, fun hn => absurd (Or.inr h2s) hn, rfl⟩
    · have h2s : ¬ (B ≠ [] ∧ NewClientID req.Peer.ID ∈ B) := fun h => h2 (key2.mpr h)
      rw [if_neg h2]
      refine ⟨⟨fun h => ?_, fun h => ?_⟩, fun _ => rfl, rfl⟩
      · simp at h
      · rcases h with h | h
        · exact absurd h h1s
        · exact absurd h h2s

/-- Witness of C3: the whitelist `[01 02 03 04 05 06]` and the empty blacklist. -/
theorem HandleAnnounce_unapproved_iff_witness :
    (∀ e ∈ ([[1, 2, 3, 4, 5, 6]] : List Bytes), e.length = 6) ∧
    (∀ e ∈ ([] : List Bytes), e.length = 6) ∧
    ∃ h, NewHook ⟨[[1, 2, 3, 4, 5, 6]], []⟩ = .ok h ∧
      ∀ (γ : Type) (ctx : γ) (req : AnnounceRequest),
        ((HandleAnnounce h ctx req).2 = some ErrClientUnapproved ↔
          (([[1, 2, 3, 4, 5, 6]] : List Bytes) ≠ [] ∧
              NewClientID req.Peer.ID ∉ ([[1, 2, 3, 4, 5, 6]] : List Bytes)) ∨
            (([] : List Bytes) ≠ [] ∧ NewClientID req.Peer.ID ∈ ([] : List Bytes))) ∧
        (¬ ((([[1, 2, 3, 4, 5, 6]] : List Bytes) ≠ [] ∧
              NewClientID req.Peer.ID ∉ ([[1, 2, 3, 4, 5, 6]] : List Bytes)) ∨
            (([] : List Bytes) ≠ [] ∧ NewClientID req.Peer.ID ∈ ([] : List Bytes))) →
          HandleAnnounce h ctx req = (ctx, none)) ∧
        (HandleAnnounce h ctx req).1 = ctx :=
  ⟨by decide, by simp,
    HandleAnnounce_unapproved_iff [[1, 2, 3, 4, 5, 6]] [] (by decide) (by simp)⟩

end clientapproval

/-! ## UDP frontend -/

namespace udp

open bittorrent

/-- C1. For a datagram of at least 16 bytes whose action (bytes 8..12, big-endian)
is not connect and whose connection ID (bytes 0..8) `ValidConnectionID` rejects for
the source IP, `handleRequest` has exactly one effect, the write of the error frame
built from the transaction ID (bytes 12..16) and `errBadConnectionID`; it returns
`errBadConnectionID`; it calls no `TrackerLogic` operation. -/
theorem handleRequest_bad_connection_id (t : Frontend) (c : Codec) (now : Int) (r : Request)
    (hlen : 16 ≤ r.Packet.length)
    (hact : bigEndian ((r.Packet.drop 8).take 4) ≠ connectActionID)
    (hbad : c.ValidConnectionID (r.Packet.take 8) r.IP now t.Config.MaxClockSkew
      t.Config.PrivateKey = false) :
    (handleRequest t c now r).effects =
        [.write (.error ((r.Packet.drop 12).take 4) errBadConnectionID)] ∧
      ((handleRequest t c now r).effects.filter Effect.isWrite).length = 1 ∧
      (handleRequest t c now r).err = some errBadConnectionID ∧
      (∀ e ∈ (handleRequest t c now r).effects, e.isLogicCall = false) := by
  have hnot : ¬ r.Packet.length < 16 := by omega
  have heff : (handleRequest t c now r) =
      ⟨"", some errBadConnectionID, WriteError ((r.Packet.drop 12).take 4) errBadConnectionID⟩ := by
    unfold handleRequest
    rw [if_neg hnot]
    simp only []
    rw [if_pos ⟨hact, hbad⟩]
  rw [heff]
  simp [WriteError, Effect.isWrite, Effect.isLogicCall]

/-- Witness of C1: a 16-byte announce header handled with a codec that rejects
every connection ID. -/
theorem handleRequest_bad_connection_id_witness :
    16 ≤ announceHeader.Packet.length ∧
      bigEndian ((announceHeader.Packet.drop 8).take 4) ≠ connectActionID ∧
      rejectingCodec.ValidConnectionID (announceHeader.Packet.take 8) announceHeader.IP 0
        emptyKeyConfig.MaxClockSkew emptyKeyConfig.PrivateKey = false ∧
      (handleRequest ⟨idleLogic, emptyKeyConfig⟩ rejectingCodec 0 announceHeader).effects =
        [.write (.error [1, 2, 3, 4] errBadConnectionID)] ∧
      ((handleRequest ⟨idleLogic, emptyKeyConfig⟩ rejectingCodec 0 announceHeader).effects.filter
        Effect.isWrite).length = 1 ∧
      (handleRequest ⟨idleLogic, emptyKeyConfig⟩ rejectingCodec 0 announceHeader).err =
        some errBadConnectionID ∧
      (∀ e ∈ (handleRequest ⟨idleLogic, emptyKeyConfig⟩ rejectingCodec 0 announceHeader).effects,
        e.isLogicCall = false) :=
  ⟨by decide, by decide, rfl,
    handleRequest_bad_connection_id ⟨idleLogic, emptyKeyConfig⟩ rejectingCodec 0 announceHeader
      (by decide) (by decide) rfl⟩

/-- C2. For a datagram shorter than 16 bytes `handleRequest` has no effect at all
(nothing is written, no `TrackerLogic` operation is called) and returns
`errMalformedPacket`. -/
theorem handleRequest_short_datagram (t : Frontend) (c : Codec) (now : Int) (r : Request)
    (hlen : r.Packet.length < 16) :
    (handleRequest t c now r).effects = [] ∧
      (handleRequest t c now r).err = some errMalformedPacket := by
  unfold handleRequest
  rw [if_pos hlen]
  exact ⟨rfl, rfl⟩

/-- Witness of C2: a 10-byte datagram. -/
theorem handleRequest_short_datagram_witness :
    shortDatagram.Packet.length < 16 ∧
      (handleRequest ⟨idleLogic, emptyKeyConfig⟩ rejectingCodec 0 shortDatagram).effects = [] ∧
      (handleRequest ⟨idleLogic, emptyKeyConfig⟩ rejectingCodec 0 shortDatagram).err =
        some errMalformedPacket :=
  ⟨by decide,
    handleRequest_short_datagram ⟨idleLogic, emptyKeyConfig⟩ rejectingCodec 0 shortDatagram
      (by decide)⟩

/-- C7 fails as stated: with an empty private key (shorter than 16 bytes)
`NewFrontend` does not fail, it returns a frontend carrying that key. -/
theorem NewFrontend_empty_key_succeeds :
    emptyKeyConfig.PrivateKey.length < 16 ∧
      ∃ f, NewFrontend idleLogic emptyKeyConfig = some f ∧ f.Config.PrivateKey = [] :=
  ⟨by decide, ⟨idleLogic, emptyKeyConfig⟩, rfl, rfl⟩

/-- C7, amended. For every configuration, whatever the length of its private key,
`NewFrontend` returns a frontend that holds the given logic and the given
configuration unchanged; it checks nothing and cannot fail. -/
theorem NewFrontend_always_succeeds (logic : TrackerLogic) (cfg : Config) :
    NewFrontend logic cfg = some { logic := logic, Config := cfg } ∧
      NewFrontend logic cfg ≠ none := by
  exact ⟨rfl, by simp [NewFrontend]⟩

end udp

/-! ## Redis peer store -/

namespace redis

open bittorrent

theorem Peer_Equal_iff (p x : Peer) : p.Equal x = true ↔ p = x := by
  cases p with
  | mk i a b =>
    cases x with
    | mk j c d => simp [Peer.Equal, and_assoc]

theorem Peer_Equal_false_iff (p x : Peer) : p.Equal x = false ↔ p ≠ x := by
  have h := Peer_Equal_iff p x
  cases hb : p.Equal x with
  | true => simp [h.mp hb]
  | false =>
    simp only [true_iff]
    intro he
    rw [h.mpr he] at hb
    exact Bool.noConfusion hb

theorem decodePeerKey_total (pk : Bytes) (h : 22 ≤ pk.length) :
    ∃ p, decodePeerKey pk = .ok p := by
  have hlen : (pk.take 20).length = 20 := by simp; omega
  have hnot : ¬ pk.length < 22 := by omega
  unfold decodePeerKey
  rw [if_neg hnot]
  simp [PeerIDFromString, hlen]

theorem getPeersLoop_appends (numWant : Int) (ann : Peer) (keys : List Bytes) :
    ∀ (acc r : List Peer), getPeersLoop numWant ann keys acc = .ok r →
      ∃ t, r = acc ++ t ∧ ∀ p ∈ t, p.Equal ann = false := by
  induction keys with
  | nil =>
    intro acc r h
    simp only [getPeersLoop, Except.ok.injEq] at h
    exact ⟨[], by simp [h], by simp⟩
  | cons k ks ih =>
    intro acc r h
    unfold getPeersLoop at h
    by_cases hfull : numWant = (acc.length : Int)
    · rw [if_pos hfull] at h
      simp only [Except.ok.injEq] at h
      exact ⟨[], by simp [h], by simp⟩
    · rw [if_neg hfull] at h
      cases hd : decodePeerKey k with
      | error f => simp [hd] at h
      | ok d =>
        simp only [hd] at h
        by_cases heq : d.Equal ann = true
        · rw [if_pos heq] at h
          exact ih acc r h
        · rw [if_neg heq] at h
          obtain ⟨t, ht, hp⟩ := ih (acc ++ [d]) r h
          refine ⟨d :: t, by simp [ht], ?_⟩
          intro p hp2
          rcases List.mem_cons.mp hp2 with h1 | h1
          · subst h1; simpa using heq
          · exact hp p h1

theorem getPeersLoop_total (numWant : Int) (ann : Peer) (keys : List Bytes)
    (hk : ∀ k ∈ keys, 22 ≤ k.length) :
    ∀ acc : List Peer, ∃ r, getPeersLoop numWant ann keys acc = .ok r := by
  induction keys with
  | nil => intro acc; exact ⟨acc, rfl⟩
  | cons k ks ih =>
    intro acc
    have ih2 := ih (fun x hx => hk x (List.mem_cons_of_mem _ hx))
    obtain ⟨d, hd⟩ := decodePeerKey_total k (hk k (List.mem_cons_self _ _))
    unfold getPeersLoop
    by_cases hfull : numWant = (acc.length : Int)
    · rw [if_pos hfull]; exact ⟨acc, rfl⟩
    · rw [if_neg hfull]
      simp only [hd]
      by_cases heq : d.Equal ann = true
      · rw [if_pos heq]; exact ih2 acc
      · rw [if_neg heq]; exact ih2 (acc ++ [d])

/-- C4. Whatever the stored keys, `numWant`, the accumulator and the announcer:
a list that `getPeers` returns starts with the accumulator, and no peer after it
is `Equal` to the announcer (each differs from the announcer); and `getPeers` does
return a list whenever every stored key has the 22 bytes of ID and port. -/
theorem getPeers_excludes_announcer (keys : List Bytes) (numWant : Int) (acc : List Peer)
    (announcer : Peer) :
    (∀ r, getPeers (.ok keys) numWant acc announcer = .ok r →
      r.take acc.length = acc ∧
      ∀ p ∈ r.drop acc.length, p.Equal announcer = false ∧ p ≠ announcer) ∧
    ((∀ k ∈ keys, 22 ≤ k.length) →
      ∃ r, getPeers (.ok keys) numWant acc announcer = .ok r) := by
  constructor
  · intro r h
    obtain ⟨t, ht, hp⟩ := getPeersLoop_appends numWant announcer keys acc r h
    subst ht
    refine ⟨by simp, ?_⟩
    intro p hmem
    rw [List.drop_left] at hmem
    exact ⟨hp p hmem, (Peer_Equal_false_iff p announcer).mp (hp p hmem)⟩
  · intro hk
    exact getPeersLoop_total numWant announcer keys hk acc

/-- Witness of C4: the announcer's own key and another peer's key are stored;
only the other peer is returned. -/
theorem getPeers_excludes_announcer_witness :
    (∀ k ∈ sampleKeys, 22 ≤ k.length) ∧
    getPeers (.ok sampleKeys) 5 [] sampleAnnouncer = .ok [samplePeer] ∧
    (∃ r, getPeers (.ok sampleKeys) 5 [] sampleAnnouncer = .ok r) ∧
    ([samplePeer].take ([] : List Peer).length = [] ∧
      ∀ p ∈ [samplePeer].drop ([] : List Peer).length,
        p.Equal sampleAnnouncer = false ∧ p ≠ sampleAnnouncer) :=
  ⟨by decide, rfl,
    (getPeers_excludes_announcer sampleKeys 5 [] sampleAnnouncer).2 (by decide),
    (getPeers_excludes_announcer sampleKeys 5 [] sampleAnnouncer).1 [samplePeer] rfl⟩

theorem decodePeerKey_all (keys : List Bytes) (hk : ∀ k ∈ keys, 22 ≤ k.length) :
    ∃ decoded, List.Forall₂ (fun k p => decodePeerKey k = .ok p) keys decoded := by
  induction keys with
  | nil => exact ⟨[], List.Forall₂.nil⟩
  | cons k ks ih =>
    obtain ⟨ds, hds⟩ := ih (fun x hx => hk x (List.mem_cons_of_mem _ hx))
    obtain ⟨d, hd⟩ := decodePeerKey_total k (hk k (List.mem_cons_self _ _))
    exact ⟨d :: ds, List.Forall₂.cons hd hds⟩

theorem getPeersLoop_eq_spec (n : Nat) (ann : Peer) (keys : List Bytes) (decoded : List Peer)
    (hdec : List.Forall₂ (fun k p => decodePeerKey k = .ok p) keys decoded) :
    ∀ acc : List Peer, acc.length ≤ n →
      getPeersLoop (n : Int) ann keys acc =
        .ok (acc ++ (decoded.filter (fun p => decide (p ≠ ann))).take (n - acc.length)) := by
  induction hdec with
  | nil => intro acc _; simp [getPeersLoop]
  | @cons k d ks ds hd _ ih =>
    intro acc hacc
    unfold getPeersLoop
    by_cases hfull : (n : Int) = (acc.length : Int)
    · rw [if_pos hfull]
      have : n - acc.length = 0 := by omega
      simp [this]
    · rw [if_neg hfull]
      have hlt : acc.length < n := by omega
      simp only [hd]
      by_cases heq : d.Equal ann = true
      · rw [if_pos heq]
        have hda : d = ann := (Peer_Equal_iff d ann).mp heq
        rw [ih acc hacc]
        simp [List.filter, hda]
      · rw [if_neg heq]
        have hda : d ≠ ann := fun h => heq ((Peer_Equal_iff d ann).mpr h)
        rw [ih (acc ++ [d]) (by simp; omega)]
        have h1 : n - acc.length = (n - (acc ++ [d]).length) + 1 := by simp; omega
        rw [h1]
        simp [List.filter, hda]

/-- C5. For stored keys that all have the 22 bytes of ID and port, `numWant >= 0`
and an accumulator of at most `numWant` peers, `getPeers` returns the list the
specification describes: the accumulator, then the decoded stored peers other
than the announcer in stored order, cut where `numWant` is reached; that list has
at most `numWant` peers and starts with the accumulator. -/
theorem getPeers_refines_spec (keys : List Bytes) (numWant : Int) (acc : List Peer)
    (announcer : Peer) (hn : 0 ≤ numWant) (hacc : (acc.length : Int) ≤ numWant)
    (hk : ∀ k ∈ keys, 22 ≤ k.length) :
    ∃ decoded, List.Forall₂ (fun k p => decodePeerKey k = .ok p) keys decoded ∧
      getPeers (.ok keys) numWant acc announcer =
        .ok (getPeersSpec decoded numWant acc announcer) ∧
      ((getPeersSpec decoded numWant acc announcer).length : Int) ≤ numWant ∧
      (getPeersSpec decoded numWant acc announcer).take acc.length = acc := by
  obtain ⟨decoded, hdec⟩ := decodePeerKey_all keys hk
  obtain ⟨n, rfl⟩ := Int.eq_ofNat_of_zero_le hn
  have hacc2 : acc.length ≤ n := by omega
  refine ⟨decoded, hdec, ?_, ?_, ?_⟩
  · simp only [getPeers, getPeersSpec, Int.toNat_ofNat]
    exact getPeersLoop_eq_spec n announcer keys decoded hdec acc hacc2
  · simp only [getPeersSpec, Int.toNat_ofNat, List.length_append, List.length_take]
    have : min (n - acc.length)
        (List.filter (fun p => decide (p ≠ announcer)) decoded).length ≤ n - acc.length :=
      Nat.min_le_left _ _
    omega
  · simp [getPeersSpec]

/-- Witness of C5: the two sample keys, `numWant = 5`, an empty accumulator. -/
theorem getPeers_refines_spec_witness :
    (0 : Int) ≤ 5 ∧ ((([] : List Peer).length : Nat) : Int) ≤ 5 ∧
    (∀ k ∈ sampleKeys, 22 ≤ k.length) ∧
    ∃ decoded, List.Forall₂ (fun k p => decodePeerKey k = .ok p) sampleKeys decoded ∧
      getPeers (.ok sampleKeys) 5 [] sampleAnnouncer =
        .ok (getPeersSpec decoded 5 [] sampleAnnouncer) ∧
      ((getPeersSpec decoded 5 [] sampleAnnouncer).length : Int) ≤ 5 ∧
      (getPeersSpec decoded 5 [] sampleAnnouncer).take ([] : List Peer).length = [] :=
  ⟨by decide, by decide, by decide,
    getPeers_refines_spec sampleKeys 5 [] sampleAnnouncer (by decide) (by decide) (by decide)⟩

theorem wrapInt64_neg (d : Int) (hlo : -9223372036854775808 < d)
    (hhi : d < 9223372036854775808) : wrapInt64 (-d) = -d := by
  unfold wrapInt64
  omega

theorem Unix_le (t : Int) : Unix t * Second ≤ t := by
  unfold Unix Second
  exact Int.ediv_mul_le t (by decide)

theorem Unix_lt (t : Int) : t < (Unix t + 1) * Second := by
  unfold Unix Second
  exact Int.lt_ediv_add_one_mul_self t (by decide)

/-- C8 fails as stated: pruning at `now = 100.5 s` with a lifetime of 10 s leaves
the entry scored 90 s in the set, although 90 s is older than
`now − peerLifetime = 90.5 s`. -/
theorem pruneExpiredPeers_keeps_older_entry :
    (([1], 90) : Bytes × Int) ∈ (pruneExpiredPeers 10000000000 100500000000 none sampleSet).1 ∧
      (90 : Int) * Second < 100500000000 - 10000000000 := by
  decide

/-- C8, amended. For a `peerLifetime` that is an `int64` duration other than the
least one (whose negation wraps), when the command is carried out,
`pruneExpiredPeers` at time `now` leaves exactly the entries of the set whose
timestamp is not older than `now − peerLifetime` rounded down to whole seconds: no
entry older than that second remains, every entry not older than it (so every
entry not older than `now − peerLifetime`) is still present, and an entry that
remains is less than one second older than `now − peerLifetime`; when
`now − peerLifetime` is a whole number of seconds, no entry older than
`now − peerLifetime` remains. -/
theorem pruneExpiredPeers_whole_seconds (set : SortedSet) (peerLifetime now : Int)
    (hlo : -9223372036854775808 < peerLifetime) (hhi : peerLifetime < 9223372036854775808) :
    (pruneExpiredPeers peerLifetime now none set).2 = none ∧
      (∀ e ∈ (pruneExpiredPeers peerLifetime now none set).1,
        e ∈ set ∧ ¬ e.2 < Unix (now - peerLifetime) ∧ now - peerLifetime < (e.2 + 1) * Second) ∧
      (∀ e ∈ set, ¬ e.2 < Unix (now - peerLifetime) →
        e ∈ (pruneExpiredPeers peerLifetime now none set).1) ∧
      (∀ e ∈ set, ¬ e.2 * Second < now - peerLifetime →
        e ∈ (pruneExpiredPeers peerLifetime now none set).1) ∧
      ((now - peerLifetime) % Second = 0 →
        ∀ e ∈ (pruneExpiredPeers peerLifetime now none set).1,
          ¬ e.2 * Second < now - peerLifetime) := by
  have hsub : now + wrapInt64 (-peerLifetime) = now - peerLifetime := by
    rw [wrapInt64_neg peerLifetime hlo hhi]; ring
  have hS : (0 : Int) < Second := by decide
  have h1 := Unix_le (now - peerLifetime)
  have h2 := Unix_lt (now - peerLifetime)
  simp only [pruneExpiredPeers, zremrangebyscoreBelow, hsub, List.mem_filter,
    Bool.not_eq_true', decide_eq_false_iff_not, true_and]
  refine ⟨?_, ?_, ?_, ?_⟩
  · rintro e ⟨he, hge⟩
    refine ⟨he, hge, ?_⟩
    have hle : Unix (now - peerLifetime) + 1 ≤ e.2 + 1 := by omega
    calc now - peerLifetime < (Unix (now - peerLifetime) + 1) * Second := h2
      _ ≤ (e.2 + 1) * Second := Int.mul_le_mul_of_nonneg_right hle (le_of_lt hS)
  · intro e he hge
    exact ⟨he, hge⟩
  · intro e he hge
    refine ⟨he, ?_⟩
    intro hlt
    apply hge
    have hle : e.2 + 1 ≤ Unix (now - peerLifetime) := by omega
    calc e.2 * Second < (e.2 + 1) * Second := by nlinarith
      _ ≤ Unix (now - peerLifetime) * Second := Int.mul_le_mul_of_nonneg_right hle (le_of_lt hS)
      _ ≤ now - peerLifetime := h1
  · rintro hmod e ⟨_, hge⟩ hlt
    have hexact : Unix (now - peerLifetime) * Second = now - peerLifetime := by
      unfold Unix
      exact Int.ediv_mul_cancel (Int.dvd_of_emod_eq_zero hmod)
    have hle : Unix (now - peerLifetime) ≤ e.2 := by omega
    have := Int.mul_le_mul_of_nonneg_right hle (le_of_lt hS)
    omega

/-- Witness of C8, amended: the sample set pruned at `now = 100.5 s` with a
lifetime of 10 s. -/
theorem pruneExpiredPeers_whole_seconds_witness :
    (-9223372036854775808 : Int) < 10000000000 ∧
    (10000000000 : Int) < 9223372036854775808 ∧
    (pruneExpiredPeers 10000000000 100500000000 none sampleSet).2 = none ∧
      (∀ e ∈ (pruneExpiredPeers 10000000000 100500000000 none sampleSet).1,
        e ∈ sampleSet ∧ ¬ e.2 < Unix (100500000000 - 10000000000) ∧
          100500000000 - 10000000000 < (e.2 + 1) * Second) ∧
      (∀ e ∈ sampleSet, ¬ e.2 < Unix (100500000000 - 10000000000) →
        e ∈ (pruneExpiredPeers 10000000000 100500000000 none sampleSet).1) ∧
      (∀ e ∈ sampleSet, ¬ e.2 * Second < 100500000000 - 10000000000 →
        e ∈ (pruneExpiredPeers 10000000000 100500000000 none sampleSet).1) ∧
      (((100500000000 : Int) - 10000000000) % Second = 0 →
        ∀ e ∈ (pruneExpiredPeers 10000000000 100500000000 none sampleSet).1,
          ¬ e.2 * Second < 100500000000 - 10000000000) :=
  ⟨by decide, by decide,
    pruneExpiredPeers_whole_seconds sampleSet 10000000000 100500000000 (by decide) (by decide)⟩

end redis

/-! ## JWT hook: key refresh -/

namespace jwt

open bittorrent

theorem fetchedKey_cons {JWK PK : Type} (env : Env JWK PK) (j : JWK) (rest : List JWK)
    (kid : Bytes) :
    fetchedKey env (j :: rest) kid =
      match rest.reverse.find? (fun x => decide (env.Kid x = kid)) with
      | some _ => fetchedKey env rest kid
      | none =>
        if env.Kid j = kid then
          match env.DecodePublicKey j with
          | .error _ => none
          | .ok pk => some pk
        else none := by
  unfold fetchedKey
  rw [List.reverse_cons, List.find?_append]
  cases hf : rest.reverse.find? (fun x => decide (env.Kid x = kid)) with
  | some x => simp
  | none =>
    by_cases hk : env.Kid j = kid
    · simp [List.find?, hk]
    · simp [List.find?, hk]

theorem collectKeys_ok {JWK PK : Type} (env : Env JWK PK) (l : List JWK) :
    ∀ keys keys2 : GoMap Bytes PK, collectKeys env l keys = .ok keys2 →
      (∀ j ∈ l, ∃ pk, env.DecodePublicKey j = .ok pk) ∧
      ∀ kid, keys2.get? kid = (fetchedKey env l kid).or (keys.get? kid) := by
  induction l with
  | nil =>
    intro keys keys2 h
    simp only [collectKeys, Except.ok.injEq] at h
    subst h
    exact ⟨by simp, fun kid => by simp [fetchedKey]⟩
  | cons j rest ih =>
    intro keys keys2 h
    unfold collectKeys at h
    cases hd : env.DecodePublicKey j with
    | error e => simp [hd] at h
    | ok pk =>
      simp only [hd] at h
      obtain ⟨hall, hget⟩ := ih _ _ h
      refine ⟨?_, ?_⟩
      · intro x hx
        rcases List.mem_cons.mp hx with h1 | h1
        · subst h1; exact ⟨pk, hd⟩
        · exact hall x h1
      · intro kid
        rw [hget kid, fetchedKey_cons, GoMap.get?_set]
        cases hf : rest.reverse.find? (fun x => decide (env.Kid x = kid)) with
        | some x =>
          have hx : x ∈ rest := by
            have := List.mem_of_find?_eq_some hf
            simpa using this
          obtain ⟨pkx, hpkx⟩ := hall x hx
          have : fetchedKey env rest kid = some pkx := by
            unfold fetchedKey; simp [hf, hpkx]
          simp [this]
        | none =>
          have : fetchedKey env rest kid = none := by
            unfold fetchedKey; simp [hf]
          by_cases hk : env.Kid j = kid
          · simp [this, hk, hd]
          · simp [this, hk]

theorem collectKeys_error {JWK PK : Type} (env : Env JWK PK) (l : List JWK) :
    ∀ (keys : GoMap Bytes PK) (err : GoError), collectKeys env l keys = .error err →
      ∃ j ∈ l, env.DecodePublicKey j = .error err := by
  induction l with
  | nil => intro keys err h; simp [collectKeys] at h
  | cons j rest ih =>
    intro keys err h
    unfold collectKeys at h
    cases hd : env.DecodePublicKey j with
    | error e =>
      simp only [hd, Except.error.injEq] at h
      subst h
      exact ⟨j, List.mem_cons_self _ _, hd⟩
    | ok pk =>
      simp only [hd] at h
      obtain ⟨x, hx, hxe⟩ := ih _ _ h
      exact ⟨x, List.mem_cons_of_mem _ hx, hxe⟩

/-- C6. For every hook state and every outcome of the refresh: if `updateKeys`
returns an error, the hook (so its `publicKeys` map) is exactly what it was, and
the error is that of the failed fetch, of the failed JSON decoding or of a key of
the set that does not decode; if it returns no error, the fetch, the decoding and
every key's decoding succeeded and a lookup in `publicKeys` finds, for each kid,
the decoded public key of the fetched key with that kid, and nothing for a kid
that was not fetched. -/
theorem updateKeys_keeps_or_replaces {JWK PK : Type} (env : Env JWK PK) (h : hook PK) :
    (∀ err, (updateKeys env h).2 = some err →
      (updateKeys env h).1 = h ∧ (updateKeys env h).1.publicKeys = h.publicKeys ∧
      (env.Get h.cfg.JWKSetURL = .error err ∨
        (∃ body, env.Get h.cfg.JWKSetURL = .ok body ∧ env.Decode body = .error err) ∨
        (∃ body fetched, env.Get h.cfg.JWKSetURL = .ok body ∧ env.Decode body = .ok fetched ∧
          ∃ j ∈ fetched, env.DecodePublicKey j = .error err))) ∧
    ((updateKeys env h).2 = none →
      ∃ body fetched, env.Get h.cfg.JWKSetURL = .ok body ∧ env.Decode body = .ok fetched ∧
        (∀ j ∈ fetched, ∃ pk, env.DecodePublicKey j = .ok pk) ∧
        (updateKeys env h).1.cfg = h.cfg ∧
        ∀ kid, (updateKeys env h).1.publicKeys.get? kid = fetchedKey env fetched kid) := by
  cases hg : env.Get h.cfg.JWKSetURL with
  | error e =>
    have hu : updateKeys env h = (h, some e) := by simp [updateKeys, hg]
    rw [hu]
    refine ⟨?_, by simp⟩
    intro err herr
    simp only [Option.some.injEq] at herr
    subst herr
    exact ⟨rfl, rfl, Or.inl rfl⟩
  | ok body =>
    cases hd : env.Decode body with
    | error e =>
      have hu : updateKeys env h = (h, some e) := by simp [updateKeys, hg, hd]
      rw [hu]
      refine ⟨?_, by simp⟩
      intro err herr
      simp only [Option.some.injEq] at herr
      subst herr
      exact ⟨rfl, rfl, Or.inr (Or.inl ⟨body, rfl, hd⟩)⟩
    | ok fetched =>
      cases hc : collectKeys env fetched GoMap.empty with
      | error e =>
        have hu : updateKeys env h = (h, some e) := by simp [updateKeys, hg, hd, hc]
        rw [hu]
        refine ⟨?_, by simp⟩
        intro err herr
        simp only [Option.some.injEq] at herr
        subst herr
        obtain ⟨j, hj, hje⟩ := collectKeys_error env fetched _ _ hc
        exact ⟨rfl, rfl, Or.inr (Or.inr ⟨body, fetched, rfl, hd, j, hj, hje⟩)⟩
      | ok keys =>
        have hu : updateKeys env h = ({ h with publicKeys := keys }, none) := by
          simp [updateKeys, hg, hd, hc]
        rw [hu]
        refine ⟨by simp, ?_⟩
        intro _
        obtain ⟨hall, hget⟩ := collectKeys_ok env fetched _ _ hc
        refine ⟨body, fetched, rfl, hd, hall, rfl, ?_⟩
        intro kid
        show keys.get? kid = fetchedKey env fetched kid
        rw [hget kid, GoMap.get?_empty]
        cases fetchedKey env fetched kid <;> rfl

/-- Witness of C6: a failing fetch leaves the sample hook as it was; a successful
fetch of the kids `01` and `02` replaces its key set. -/
theorem updateKeys_keeps_or_replaces_witness :
    (updateKeys failingEnv sampleHook).2 = some (.plain "connection refused") ∧
    (updateKeys failingEnv sampleHook).1.publicKeys = sampleHook.publicKeys ∧
    (updateKeys sampleEnv sampleHook).2 = none ∧
    (updateKeys sampleEnv sampleHook).1.publicKeys.get? [1] = some 7 ∧
    (updateKeys sampleEnv sampleHook).1.publicKeys.get? [9] = none ∧
    ∃ body fetched, sampleEnv.Get sampleHook.cfg.JWKSetURL = .ok body ∧
      sampleEnv.Decode body = .ok fetched ∧
      (∀ j ∈ fetched, ∃ pk, sampleEnv.DecodePublicKey j = .ok pk) ∧
      (updateKeys sampleEnv sampleHook).1.cfg = sampleHook.cfg ∧
      ∀ kid, (updateKeys sampleEnv sampleHook).1.publicKeys.get? kid =
        fetchedKey sampleEnv fetched kid :=
  ⟨rfl,
    ((updateKeys_keeps_or_replaces failingEnv sampleHook).1 (.plain "connection refused") rfl).2.1,
    rfl, by decide, by decide,
    (updateKeys_keeps_or_replaces sampleEnv sampleHook).2 rfl⟩

/-! ## JWT hook: the `infohash` claim -/

theorem InfoHashFromString_iff (s : Bytes) (ih : InfoHash) :
    (s.length = 20 ∧ InfoHashFromString s = some ih) ↔ s = ih.val := by
  constructor
  · rintro ⟨hl, h⟩
    simp only [InfoHashFromString, hl, dite_true, Option.some.injEq] at h
    rw [← h]
  · intro h
    subst h
    refine ⟨ih.property, ?_⟩
    simp [InfoHashFromString, ih.property]

theorem validInfoHash_eq_true_iff (s : Bytes) (ih : InfoHash) :
    validInfoHash s ih = true ↔ (s = ih.val ∨ QueryUnescape s = .ok ih.val) := by
  unfold validInfoHash
  by_cases h1 : s.length = 20 ∧ InfoHashFromString s = some ih
  · rw [if_pos h1]
    simp [(InfoHashFromString_iff s ih).mp h1]
  · rw [if_neg h1]
    have h1s : ¬ s = ih.val := fun h => h1 ((InfoHashFromString_iff s ih).mpr h)
    cases hq : QueryUnescape s with
    | error e => simp [h1s]
    | ok u =>
      simp only [h1s, false_or, Except.ok.injEq]
      rw [← InfoHashFromString_iff u ih]
      by_cases h2 : u.length = 20 ∧ InfoHashFromString u = some ih
      · simp [h2]
      · simp [h2]

set_option maxRecDepth 100000 in
theorem unhex_hexDigit (b : Byte) :
    ((unhex (hexDigit (b.val / 16)) <<< 4) ||| unhex (hexDigit (b.val % 16))) = b := by
  revert b; decide

set_option maxRecDepth 100000 in
theorem ishex_hexDigit (b : Byte) :
    (ishex (hexDigit (b.val / 16)) && ishex (hexDigit (b.val % 16))) = true := by
  revert b; decide

theorem escapeError_percentEncode (bs : Bytes) : escapeError (percentEncode bs) = none := by
  induction bs with
  | nil => rfl
  | cons b rest ih =>
    simp only [percentEncode, escapeError, if_true, ishex_hexDigit b]
    exact ih

theorem unescapeBytes_percentEncode (bs : Bytes) : unescapeBytes (percentEncode bs) = bs := by
  induction bs with
  | nil => rfl
  | cons b rest ih =>
    simp only [percentEncode, unescapeBytes, if_true, unhex_hexDigit b, ih]

theorem QueryUnescape_percentEncode (bs : Bytes) : QueryUnescape (percentEncode bs) = .ok bs := by
  unfold QueryUnescape
  rw [escapeError_percentEncode]
  simp only []
  split
  · rename_i h
    cases bs with
    | nil => rfl
    | cons b rest => exact absurd (List.mem_cons_self _ _) h.1
  · rw [unescapeBytes_percentEncode]

/-- C9. For every claim string `s` and info-hash `ih`, `validInfoHash s ih` is true
exactly when `s` is the 20 raw bytes of `ih` or query-unescaping `s` succeeds and
yields the 20 raw bytes of `ih`; in particular the raw 20-byte string of every
info-hash (whatever bytes it contains) and its fully percent-encoded form are
accepted. -/
theorem validInfoHash_iff (s : Bytes) (ih : InfoHash) :
    (validInfoHash s ih = true ↔
      (s = ih.val ∨ ∃ u, QueryUnescape s = .ok u ∧ u = ih.val)) ∧
    validInfoHash ih.val ih = true ∧
    validInfoHash (percentEncode ih.val) ih = true := by
  refine ⟨?_, ?_, ?_⟩
  · rw [validInfoHash_eq_true_iff]
    constructor
    · rintro (h | h)
      · exact Or.inl h
      · exact Or.inr ⟨ih.val, h, rfl⟩
    · rintro (h | ⟨u, hu, rfl⟩)
      · exact Or.inl h
      · exact Or.inr hu
  · exact (validInfoHash_eq_true_iff _ _).mpr (Or.inl rfl)
  · exact (validInfoHash_eq_true_iff _ _).mpr (Or.inr (QueryUnescape_percentEncode _))

theorem unescapeBytes_cons_other (c : Byte) (rest : Bytes) (hc : ¬ c = 0x25) :
    unescapeBytes (c :: rest) = (if c = 0x2B then 0x20 else c) :: unescapeBytes rest := by
  by_cases hp : c = 0x2B <;>
    rcases rest with _ | ⟨a, _ | ⟨b, rest2⟩⟩ <;> simp [unescapeBytes, hc, hp]

theorem escapeError_cons_other (c : Byte) (rest : Bytes) (hc : ¬ c = 0x25) :
    escapeError (c :: rest) = escapeError rest := by
  rcases rest with _ | ⟨a, _ | ⟨b, rest2⟩⟩ <;> simp [escapeError, hc]

theorem unescapeBytes_length_le (n : Nat) :
    ∀ s : Bytes, s.length ≤ n → (unescapeBytes s).length ≤ s.length := by
  induction n with
  | zero =>
    intro s hs
    cases s with
    | nil => simp [unescapeBytes]
    | cons c rest => simp at hs
  | succ n ih =>
    intro s hs
    cases s with
    | nil => simp [unescapeBytes]
    | cons c rest =>
      have hr : rest.length ≤ n := by simpa using hs
      by_cases hc : c = 0x25
      · cases rest with
        | nil => simp [unescapeBytes, hc]
        | cons a rest1 =>
          cases rest1 with
          | nil => simp [unescapeBytes, hc]
          | cons b rest2 =>
            have h2 := ih rest2 (by simp at hr; omega)
            simp only [unescapeBytes, hc, if_true, List.length_cons]
            omega
      · have h1 := ih rest hr
        rw [unescapeBytes_cons_other c rest hc]
        simp only [List.length_cons]
        omega

theorem unescapeBytes_length_lt (n : Nat) :
    ∀ s : Bytes, s.length ≤ n → escapeError s = none → (0x25 : Byte) ∈ s →
      (unescapeBytes s).length < s.length := by
  induction n with
  | zero =>
    intro s hs _ hm
    cases s with
    | nil => simp at hm
    | cons c rest => simp at hs
  | succ n ih =>
    intro s hs he hm
    cases s with
    | nil => simp at hm
    | cons c rest =>
      have hr : rest.length ≤ n := by simpa using hs
      by_cases hc : c = 0x25
      · cases rest with
        | nil => simp [escapeError, hc] at he
        | cons a rest1 =>
          cases rest1 with
          | nil => simp [escapeError, hc] at he
          | cons b rest2 =>
            have h2 := unescapeBytes_length_le rest2.length rest2 (le_refl _)
            simp only [unescapeBytes, hc, if_true, List.length_cons]
            omega
      · have he2 : escapeError rest = none := by
          rw [escapeError_cons_other c rest hc] at he; exact he
        have hm2 : (0x25 : Byte) ∈ rest := by
          rcases List.mem_cons.mp hm with h | h
          · exact absurd h.symm hc
          · exact h
        have h1 := ih rest hr he2 hm2
        rw [unescapeBytes_cons_other c rest hc]
        simp only [List.length_cons]
        omega

/-- C10 fails as stated: the claim `+aaaaaaaaaaaaaaaaaaa` is accepted for the
info-hash with exactly these bytes and for the different info-hash that starts
with a space instead of the `+`. -/
theorem validInfoHash_two_swarms :
    validInfoHash plusClaim plusHash = true ∧ validInfoHash plusClaim spaceHash = true ∧
      plusHash ≠ spaceHash := by
  decide

/-- C10, amended. A claim string that is not a 20-byte string containing `+` and
no `%` authorizes at most one swarm: if `validInfoHash s ih1` and
`validInfoHash s ih2` are both true for such an `s`, then `ih1 = ih2`. -/
theorem validInfoHash_one_swarm (s : Bytes) (ih1 ih2 : InfoHash)
    (h1 : validInfoHash s ih1 = true) (h2 : validInfoHash s ih2 = true)
    (hs : ¬ (s.length = 20 ∧ (0x2B : Byte) ∈ s ∧ ¬ (0x25 : Byte) ∈ s)) : ih1 = ih2 := by
  have mixed : ∀ a b : InfoHash, s = a.val → QueryUnescape s = .ok b.val → a = b := by
    intro a b ha hb
    have hlen : s.length = 20 := by rw [ha]; exact a.property
    unfold QueryUnescape at hb
    cases he : escapeError s with
    | some frag => simp [he] at hb
    | none =>
      simp only [he] at hb
      by_cases hpct : (0x25 : Byte) ∈ s
      · have hcond : ¬ (¬ (0x25 : Byte) ∈ s ∧ ¬ (0x2B : Byte) ∈ s) := fun h => h.1 hpct
        rw [if_neg hcond] at hb
        simp only [Except.ok.injEq] at hb
        have hlt := unescapeBytes_length_lt s.length s (le_refl _) he hpct
        rw [hb, b.property, hlen] at hlt
        exact absurd hlt (lt_irrefl _)
      · have hplus : ¬ (0x2B : Byte) ∈ s := fun h => hs ⟨hlen, h, hpct⟩
        rw [if_pos ⟨hpct, hplus⟩] at hb
        simp only [Except.ok.injEq] at hb
        exact Subtype.ext (ha.symm.trans hb)
  rcases (validInfoHash_eq_true_iff s ih1).mp h1 with a1 | a1 <;>
    rcases (validInfoHash_eq_true_iff s ih2).mp h2 with a2 | a2
  · exact Subtype.ext (a1.symm.trans a2)
  · exact mixed ih1 ih2 a1 a2
  · exact (mixed ih2 ih1 a2 a1).symm
  · rw [a1] at a2
    simp only [Except.ok.injEq] at a2
    exact Subtype.ext a2

/-- Witness of C10, amended: the 20-byte claim `+%41aaaaaaaaaaaaaaaa` contains `+`
but also `%`; it is accepted for the info-hash with its raw bytes. -/
theorem validInfoHash_one_swarm_witness :
    validInfoHash plusPercentClaim plusPercentHash = true ∧
      ¬ (plusPercentClaim.length = 20 ∧ (0x2B : Byte) ∈ plusPercentClaim ∧
        ¬ (0x25 : Byte) ∈ plusPercentClaim) ∧
      plusPercentHash = plusPercentHash :=
  ⟨by decide, by decide,
    validInfoHash_one_swarm plusPercentClaim plusPercentHash plusPercentHash
      (by decide) (by decide) (by decide)⟩

end jwt

end Chihaya
